import Mathlib

/-!
Verification of the mapbox-search cache cluster: the server glue code in
server.go together with the distributed cache-group core it delegates to
(key-to-peer routing, single-flight request deduplication, LRU-bounded local
store, peer fetch with local fallback).  The core library itself is not part
of this repository, so its operations are modelled from the specification;
the server glue (flag parsing, key construction, peer updates) is embedded
directly from server.go.
-/

namespace MapboxSearch

/-! ## Go strings.Split with a one-character separator (server.go lines 36 and 188) -/

/-- Embedding of Go `strings.Split(s, sep)` for a single-character separator,
over the character list of the string.  `strings.Split("", ",") = [""]` in Go,
matching the base case here. -/
def goSplit (sep : Char) : List Char → List (List Char)
  | [] => [[]]
  | c :: rest =>
    if c = sep then [] :: goSplit sep rest
    else
      match goSplit sep rest with
      | [] => [[c]]
      | h :: t => (c :: h) :: t

/-- `strings.Split` on Lean strings: split the character data and repack. -/
def stringsSplit (s : String) (sep : Char) : List String :=
  (goSplit sep s.data).map (fun l => String.mk l)

/-! ## main: peers-csv flag handling (server.go lines 36 and 49-51) -/

/-- `peersList := strings.Split(*peersCSV, ",")` in main. -/
def peersListOf (csv : String) : List String := stringsSplit csv ','

/-- The guard `if len(peersList) > 0` in main deciding whether `pool.Set`
runs at startup. -/
def poolSetCalled (csv : String) : Bool := decide (0 < (peersListOf csv).length)

/-- The pool's peer list after startup: `some` the split list when the guard
held and `pool.Set(peersList...)` ran, `none` when it was left unset. -/
def poolPeersAfterStartup (csv : String) : Option (List String) :=
  if 0 < (peersListOf csv).length then some (peersListOf csv) else none

/-! ## lookup handler key construction and the lat_lon loader guard
(server.go lines 100 and 188-191) -/

/-- The lat/lon cache key `fmt.Sprintf("%.6f,%.6f", ld.Lat, ld.Lon)` built by
the lookup handler: the two formatted fields joined by a comma.  The
rendering of each `%.6f` field is abstracted as an arbitrary string, which
only widens the set of keys covered. -/
def latLonKey (latStr lonStr : String) : String := latStr ++ "," ++ lonStr

/-- The guard `len(splits) < 2` in the lat_lon_lookup loader that produces
the `expecting <lat>,<lon>` error. -/
def latLonGuardFails (key : String) : Bool :=
  decide ((stringsSplit key ',').length < 2)

/-! ## Local Store (bounded LRU cache) -/

/-- A cache entry value: raw bytes, modelled as a list of byte values. -/
abbrev Bytes := List Nat

/-- Modelled from the spec: the per-group bounded Local Store of section 4.2,
missing from src/ (the repository delegates it to the external groupcache
library).  Entries are kept most-recently-used first; each entry is accounted
as its value length plus a fixed per-entry overhead. -/
structure LRUStore where
  capacity : Nat
  overhead : Nat
  entries : List (String × Bytes)

/-- Total accounted size of a list of entries. -/
def entriesSize (overhead : Nat) (es : List (String × Bytes)) : Nat :=
  (es.map (fun e => e.2.length + overhead)).sum

/-- Total accounted size of the store. -/
def LRUStore.totalSize (st : LRUStore) : Nat :=
  entriesSize st.overhead st.entries

/-- Modelled from the spec: evict least-recently-used entries (the head of
this LRU-first list) until the total accounted size fits the capacity. -/
def trimToCapacity (overhead cap : Nat) : List (String × Bytes) → List (String × Bytes)
  | [] => []
  | e :: rest =>
    if entriesSize overhead (e :: rest) ≤ cap then e :: rest
    else trimToCapacity overhead cap rest

/-- Modelled from the spec: `Get(key) -> (bytes, found)` on the Local Store;
a hit promotes the entry to most-recently-used. -/
def LRUStore.get (st : LRUStore) (k : String) : Option Bytes × LRUStore :=
  match st.entries.find? (fun e => e.1 == k) with
  | none => (none, st)
  | some e =>
    (some e.2, { st with entries := e :: st.entries.filter (fun x => x.1 != k) })

/-- Modelled from the spec: `Set(key, bytes)` on the Local Store.  A single
entry whose accounted size alone exceeds capacity is rejected (store
unchanged, nothing evicted); otherwise the entry is inserted/replaced at the
most-recently-used position and least-recently-used entries are evicted
synchronously until the capacity bound holds. -/
def LRUStore.set (st : LRUStore) (k : String) (v : Bytes) : LRUStore :=
  if st.capacity < v.length + st.overhead then st
  else
    let es := (k, v) :: st.entries.filter (fun e => e.1 != k)
    { st with entries := (trimToCapacity st.overhead st.capacity es.reverse).reverse }

/-- An empty Local Store with the given capacity and per-entry overhead. -/
def emptyStore (cap overhead : Nat) : LRUStore :=
  { capacity := cap, overhead := overhead, entries := [] }

/-- Run a sequence of `Set` calls against a store. -/
def runSets (ops : List (String × Bytes)) (st : LRUStore) : LRUStore :=
  ops.foldl (fun s op => s.set op.1 op.2) st

/-- The store state after the C6 scenario: capacity for exactly two
unit-size entries; insert A, insert B, `Get(A)`, insert C. -/
def lruScenarioC6 : LRUStore :=
  let s1 := (emptyStore 2 0).set "A" [1]
  let s2 := s1.set "B" [2]
  let s3 := (s2.get "A").2
  s3.set "C" [3]

/-! ## Cache Group Get (spec section 4.1) -/

/-- Which node owns a key under the router's current PeerSet snapshot. -/
inductive Owner
  | localNode
  | remotePeer (peer : String)

/-- Modelled from the spec: the collaborators of one Group.Get call — the
router's ownership verdict for the fixed PeerSet snapshot, the origin-loader
outcome, and the peer-transport outcome, each a pure per-key outcome. -/
structure GroupEnv where
  owner : String → Owner
  loader : String → Except String Bytes
  peerFetch : String → Except String Bytes

/-- Outcome of one Group.Get call: the result handed to the caller, the
Local Store afterwards, and whether the local origin-loader ran. -/
structure GetOutcome where
  result : Except String Bytes
  store : LRUStore
  loaderInvoked : Bool

/-- Modelled from the spec: the Group.Get control flow of section 4.1,
missing from src/ (delegated to the external cache library).  Check the
Local Store; on a miss consult the router: a locally-owned key runs the
origin-loader and caches on success only; a remotely-owned key tries the
peer transport, caches its bytes on success, and on transport failure falls
back to the local origin-loader for this call only, caching that result
locally and surfacing an error only when the fallback load itself fails. -/
def groupGet (env : GroupEnv) (st : LRUStore) (k : String) : GetOutcome :=
  match st.get k with
  | (some v, st') => { result := .ok v, store := st', loaderInvoked := false }
  | (none, st') =>
    match env.owner k with
    | .localNode =>
      match env.loader k with
      | .ok v => { result := .ok v, store := st'.set k v, loaderInvoked := true }
      | .error e => { result := .error e, store := st', loaderInvoked := true }
    | .remotePeer _ =>
      match env.peerFetch k with
      | .ok v => { result := .ok v, store := st'.set k v, loaderInvoked := false }
      | .error _ =>
        match env.loader k with
        | .ok v => { result := .ok v, store := st'.set k v, loaderInvoked := true }
        | .error e => { result := .error e, store := st', loaderInvoked := true }

/-! ## Single-Flight Coordinator (spec section 4.3) -/

/-- State of the single-flight coordinator for one key: the ids of the
callers joined to the in-flight call (most recent first), or `none` when no
call is pending, with a count of origin-loader executions started. -/
structure SFState where
  pending : Option (List Nat)
  execCount : Nat

/-- The coordinator before any caller arrives. -/
def sfInit : SFState := { pending := none, execCount := 0 }

/-- Modelled from the spec: one caller arriving at `Do` for the key.  The
first caller registers the pending call and starts the single execution;
every later caller joins as a waiter without starting another. -/
def sfArrive (s : SFState) (i : Nat) : SFState :=
  match s.pending with
  | none => { pending := some [i], execCount := s.execCount + 1 }
  | some ws => { pending := some (i :: ws), execCount := s.execCount }

/-- All callers of one single-flight window arriving, in the given
interleaving order. -/
def sfRunArrivals (callers : List Nat) (s : SFState) : SFState :=
  callers.foldl sfArrive s

/-- Modelled from the spec: the in-flight execution completing with result
`r`; the one result is fanned out to every joined caller and the key is
deregistered. -/
def sfComplete (r : Except String Bytes) (s : SFState) :
    List (Nat × Except String Bytes) × SFState :=
  match s.pending with
  | some ws => (ws.map (fun i => (i, r)), { pending := none, execCount := s.execCount })
  | none => ([], s)

/-! ## Single-flight window with per-waiter cancellation (spec sections
4.1 step 3 and 5) -/

/-- State of a single-flight window whose waiters carry an individual
context-cancellation flag. -/
structure SFCState where
  pending : Option (List (Nat × Bool))
  execCount : Nat

/-- The window before any caller arrives. -/
def sfcInit : SFCState := { pending := none, execCount := 0 }

/-- A caller arriving with an uncancelled context. -/
def sfcArrive (s : SFCState) (i : Nat) : SFCState :=
  match s.pending with
  | none => { pending := some [(i, false)], execCount := s.execCount + 1 }
  | some ws => { pending := some ((i, false) :: ws), execCount := s.execCount }

/-- Modelled from the spec: caller `i`'s context is cancelled before the
loader completes.  Only that waiter's own flag is set; the pending call and
its single execution are untouched, so the shared load keeps running for
the remaining waiters. -/
def sfcCancel (s : SFCState) (i : Nat) : SFCState :=
  match s.pending with
  | none => s
  | some ws =>
    { pending := some (ws.map (fun w => if w.1 == i then (w.1, true) else w)),
      execCount := s.execCount }

/-- Modelled from the spec: the shared load completes with result `r`; a
cancelled waiter returns a context-cancellation error, every other waiter
receives `r`. -/
def sfcComplete (r : Except String Bytes) (s : SFCState) :
    List (Nat × Except String Bytes) :=
  match s.pending with
  | some ws => ws.map (fun w => (w.1, if w.2 then .error "context canceled" else r))
  | none => []

/-- The two-caller cancellation scenario: callers `i` and `j` join the same
window for one key, then `i`'s context is cancelled while the load is still
in flight. -/
def sfcScenario (i j : Nat) : SFCState :=
  sfcCancel (sfcArrive (sfcArrive sfcInit i) j) i

/-! ## Peer Picker / Router (spec section 4.4; setPeers in server.go) -/

/-- Modelled from the spec: a deterministic hash of a key, used for
modular-hash partitioning over the peer identities. -/
def keyHash (k : String) : Nat :=
  k.data.foldl (fun h c => h * 31 + c.toNat) 7

/-- Modelled from the spec: `PickOwner` maps a key to one member of the
current PeerSet snapshot by modular-hash partitioning; with no peers
configured the local node owns every key. -/
def pickOwner (self : String) (peers : List String) (k : String) : String :=
  match peers with
  | [] => self
  | p :: rest => (p :: rest).getD (keyHash k % (p :: rest).length) self

/-- Modelled from the spec: `SetPeers` replaces the router's mapping
wholesale with the new peer list in one atomic step — mirrored in src by
the mutex-guarded `pool.Set(ps.Peers...)` in the /setpeers handler. -/
def applySetPeers (_cur : List String) (newPeers : List String) : List String :=
  newPeers

/-- The router's PeerSet snapshot after a sequence of SetPeers updates. -/
def routerAfter (init : List String) (updates : List (List String)) : List String :=
  updates.foldl applySetPeers init

end MapboxSearch

namespace MapboxSearch

/-! ## Theorems -/

theorem goSplit_length (sep : Char) (l : List Char) :
    (goSplit sep l).length = l.count sep + 1 := by
  induction l with
  | nil => simp [goSplit]
  | cons c rest ih =>
    by_cases h : c = sep
    · simp [goSplit, h, ih, List.count_cons]
    · simp only [goSplit, if_neg h]
      rcases hr : goSplit sep rest with _ | ⟨hd, tl⟩
      · rw [hr] at ih
        simp at ih
      · rw [hr] at ih
        simp only [List.length_cons] at ih ⊢
        rw [List.count_cons, if_neg (by simpa using h)]
        simpa using ih

theorem stringsSplit_length (s : String) (sep : Char) :
    (stringsSplit s sep).length = s.data.count sep + 1 := by
  simp [stringsSplit, goSplit_length]

/-- C9: for every value of the peers-csv flag, `strings.Split` on "," returns
at least one element, so the `len(peersList) > 0` guard in main always holds
and `pool.Set` is always invoked; with the empty flag the pool's peer list
becomes the single empty-string address rather than staying unset. -/
theorem main_always_sets_pool (csv : String) :
    1 ≤ (peersListOf csv).length ∧
    poolSetCalled csv = true ∧
    poolPeersAfterStartup "" = some [""] := by
  refine ⟨?_, ?_, ?_⟩
  · rw [peersListOf, stringsSplit_length]
    omega
  · have h : 0 < (peersListOf csv).length := by
      rw [peersListOf, stringsSplit_length]; omega
    simpa [poolSetCalled] using h
  · rfl

theorem entriesSize_reverse (o : Nat) (l : List (String × Bytes)) :
    entriesSize o l.reverse = entriesSize o l := by
  unfold entriesSize
  rw [List.map_reverse, List.sum_reverse]

theorem trimToCapacity_size_le (o c : Nat) (l : List (String × Bytes)) :
    entriesSize o (trimToCapacity o c l) ≤ c := by
  induction l with
  | nil => simp [trimToCapacity, entriesSize]
  | cons e rest ih =>
    simp only [trimToCapacity]
    split
    · assumption
    · exact ih

theorem trimToCapacity_subset (o c : Nat) (l : List (String × Bytes)) :
    ∀ x ∈ trimToCapacity o c l, x ∈ l := by
  induction l with
  | nil => simp [trimToCapacity]
  | cons e rest ih =>
    intro x hx
    simp only [trimToCapacity] at hx
    split at hx
    · exact hx
    · exact List.mem_cons_of_mem _ (ih x hx)

theorem set_capacity (st : LRUStore) (k : String) (v : Bytes) :
    (st.set k v).capacity = st.capacity := by
  unfold LRUStore.set
  split <;> rfl

theorem set_overhead (st : LRUStore) (k : String) (v : Bytes) :
    (st.set k v).overhead = st.overhead := by
  unfold LRUStore.set
  split <;> rfl

theorem set_totalSize_le (st : LRUStore) (k : String) (v : Bytes)
    (h : st.totalSize ≤ st.capacity) :
    (st.set k v).totalSize ≤ st.capacity := by
  unfold LRUStore.set
  split
  · exact h
  · simp only [LRUStore.totalSize]
    rw [entriesSize_reverse]
    exact trimToCapacity_size_le _ _ _

theorem set_entries_bounded (st : LRUStore) (k : String) (v : Bytes)
    (h : ∀ e ∈ st.entries, e.2.length + st.overhead ≤ st.capacity) :
    ∀ e ∈ (st.set k v).entries, e.2.length + st.overhead ≤ st.capacity := by
  unfold LRUStore.set
  split
  · exact h
  · intro e he
    simp only at he
    have h1 : e ∈ trimToCapacity st.overhead st.capacity
        (((k, v) :: st.entries.filter (fun x => x.1 != k)).reverse) :=
      List.mem_reverse.mp he
    have h2 := trimToCapacity_subset _ _ _ e h1
    have h3 : e ∈ (k, v) :: st.entries.filter (fun x => x.1 != k) :=
      List.mem_reverse.mp h2
    rcases List.mem_cons.mp h3 with h4 | h4
    · subst h4
      show v.length + st.overhead ≤ st.capacity
      omega
    · exact h (e) (List.mem_of_mem_filter h4)

theorem runSets_capacity (ops : List (String × Bytes)) :
    ∀ st : LRUStore, (runSets ops st).capacity = st.capacity := by
  induction ops with
  | nil => intro st; rfl
  | cons op rest ih =>
    intro st
    simp only [runSets, List.foldl_cons]
    rw [show List.foldl (fun s op => LRUStore.set s op.1 op.2) (st.set op.1 op.2) rest
          = runSets rest (st.set op.1 op.2) from rfl]
    rw [ih, set_capacity]

theorem runSets_overhead (ops : List (String × Bytes)) :
    ∀ st : LRUStore, (runSets ops st).overhead = st.overhead := by
  induction ops with
  | nil => intro st; rfl
  | cons op rest ih =>
    intro st
    simp only [runSets, List.foldl_cons]
    rw [show List.foldl (fun s op => LRUStore.set s op.1 op.2) (st.set op.1 op.2) rest
          = runSets rest (st.set op.1 op.2) from rfl]
    rw [ih, set_overhead]

theorem runSets_inv (ops : List (String × Bytes)) :
    ∀ st : LRUStore, st.totalSize ≤ st.capacity →
      (∀ e ∈ st.entries, e.2.length + st.overhead ≤ st.capacity) →
      (runSets ops st).totalSize ≤ st.capacity ∧
        ∀ e ∈ (runSets ops st).entries, e.2.length + st.overhead ≤ st.capacity := by
  induction ops with
  | nil => intro st h1 h2; exact ⟨h1, h2⟩
  | cons op rest ih =>
    intro st h1 h2
    have hstep : runSets (op :: rest) st = runSets rest (st.set op.1 op.2) := rfl
    rw [hstep]
    have hc := set_capacity st op.1 op.2
    have ho := set_overhead st op.1 op.2
    have h1' : (st.set op.1 op.2).totalSize ≤ (st.set op.1 op.2).capacity := by
      rw [hc]; exact set_totalSize_le st op.1 op.2 h1
    have h2' : ∀ e ∈ (st.set op.1 op.2).entries,
        e.2.length + (st.set op.1 op.2).overhead ≤ (st.set op.1 op.2).capacity := by
      rw [hc, ho]; exact set_entries_bounded st op.1 op.2 h2
    have := ih (st.set op.1 op.2) h1' h2'
    rw [hc, ho] at this
    exact this

/-- C2: after any sequence of Set calls starting from an empty Local Store,
the total accounted size stays within the configured capacity, every entry
present fits within capacity on its own (an oversize entry is never present),
and a Set whose single entry alone exceeds capacity leaves the store
unchanged rather than evicting everything. -/
theorem store_capacity_invariant (cap ov : Nat) (ops : List (String × Bytes)) :
    (runSets ops (emptyStore cap ov)).totalSize ≤ cap ∧
    ((runSets ops (emptyStore cap ov)).entries.all
       (fun e => decide (e.2.length + ov ≤ cap))) = true ∧
    (∀ st : LRUStore, ∀ k : String, ∀ v : Bytes,
       st.capacity < v.length + st.overhead → st.set k v = st) := by
  have hbase1 : (emptyStore cap ov).totalSize ≤ (emptyStore cap ov).capacity := by
    simp [emptyStore, LRUStore.totalSize, entriesSize]
  have hbase2 : ∀ e ∈ (emptyStore cap ov).entries,
      e.2.length + (emptyStore cap ov).overhead ≤ (emptyStore cap ov).capacity := by
    simp [emptyStore]
  have h := runSets_inv ops (emptyStore cap ov) hbase1 hbase2
  refine ⟨h.1, ?_, ?_⟩
  · rw [List.all_eq_true]
    intro e he
    exact decide_eq_true (h.2 e he)
  · intro st k v hov
    unfold LRUStore.set
    rw [if_pos hov]

/-- Closed instance of the capacity invariant, exercising the oversize
rejection branch at a concrete store and entry. -/
theorem store_capacity_invariant_witness :
    (emptyStore 2 0).set "A" [1, 2, 3] = emptyStore 2 0 :=
  (store_capacity_invariant 2 0 []).2.2 (emptyStore 2 0) "A" [1, 2, 3] (by decide)

/-- C6: with capacity for exactly two unit-size entries, after inserting A
and B, reading A, then inserting C, the store holds A and C while B has been
evicted first (the read promoted A to most-recently-used). -/
theorem lru_eviction_order :
    ((lruScenarioC6.entries.map Prod.fst).contains "A") = true ∧
    ((lruScenarioC6.entries.map Prod.fst).contains "C") = true ∧
    ((lruScenarioC6.entries.map Prod.fst).contains "B") = false := by
  decide

/-- C10: every lat/lon key the server constructs is two fields joined by a
comma, so splitting it on "," yields at least two fields and the
`expecting <lat>,<lon>` error branch of the lat_lon_lookup loader never
fires on a server-generated key. -/
theorem latLon_guard_unreachable (latStr lonStr : String) :
    2 ≤ (stringsSplit (latLonKey latStr lonStr) ',').length ∧
    latLonGuardFails (latLonKey latStr lonStr) = false := by
  have hdata : (latLonKey latStr lonStr).data
      = latStr.data ++ (',' :: lonStr.data) := by
    simp [latLonKey, String.data_append]
  have hcount : 1 ≤ (latLonKey latStr lonStr).data.count ',' := by
    simp only [hdata, List.count_append, List.count_cons_self]
    omega
  have hlen : 2 ≤ (stringsSplit (latLonKey latStr lonStr) ',').length := by
    rw [stringsSplit_length]
    omega
  exact ⟨hlen, by simpa [latLonGuardFails] using Nat.not_lt.mpr hlen⟩

theorem sfRunArrivals_pending (cs : List Nat) :
    ∀ (ws : List Nat) (n : Nat),
      sfRunArrivals cs { pending := some ws, execCount := n }
        = { pending := some (cs.reverse ++ ws), execCount := n } := by
  induction cs with
  | nil =>
    intro ws n
    simp [sfRunArrivals]
  | cons c rest ih =>
    intro ws n
    have hstep : sfRunArrivals (c :: rest) { pending := some ws, execCount := n }
        = sfRunArrivals rest (sfArrive { pending := some ws, execCount := n } c) := rfl
    rw [hstep]
    show sfRunArrivals rest { pending := some (c :: ws), execCount := n } = _
    rw [ih (c :: ws) n]
    simp

/-- C1: in one single-flight window, any number N of concurrent callers for
the same uncached locally-owned key, arriving in any order, start exactly
one origin-loader execution; completion fans the identical result out to
all N callers and deregisters the key. -/
theorem single_flight_dedup (callers : List Nat) (r : Except String Bytes)
    (h : callers ≠ []) :
    (sfRunArrivals callers sfInit).execCount = 1 ∧
    (sfComplete r (sfRunArrivals callers sfInit)).1
      = callers.reverse.map (fun i => (i, r)) ∧
    ((sfComplete r (sfRunArrivals callers sfInit)).1).length = callers.length ∧
    (sfComplete r (sfRunArrivals callers sfInit)).2.pending = none := by
  match callers, h with
  | c :: cs, _ =>
    have h1 : sfRunArrivals (c :: cs) sfInit
        = { pending := some (cs.reverse ++ [c]), execCount := 1 } := by
      have hstep : sfRunArrivals (c :: cs) sfInit
          = sfRunArrivals cs { pending := some [c], execCount := 1 } := rfl
      rw [hstep, sfRunArrivals_pending]
    rw [h1]
    have h2 : cs.reverse ++ [c] = (c :: cs).reverse := by simp
    refine ⟨rfl, ?_, ?_, rfl⟩
    · show (cs.reverse ++ [c]).map (fun i => (i, r))
        = (c :: cs).reverse.map (fun i => (i, r))
      rw [h2]
    · show ((cs.reverse ++ [c]).map (fun i => (i, r))).length = (c :: cs).length
      simp

/-- Closed instance of single-flight deduplication for three concurrent
callers. -/
theorem single_flight_dedup_witness :
    (sfRunArrivals [10, 11, 12] sfInit).execCount = 1 ∧
    (sfComplete (Except.ok [1]) (sfRunArrivals [10, 11, 12] sfInit)).1
      = [(12, Except.ok [1]), (11, Except.ok [1]), (10, Except.ok [1])] := by
  have h := single_flight_dedup [10, 11, 12] (Except.ok [1]) (by decide)
  exact ⟨h.1, h.2.1.trans rfl⟩

/-- C7: when two callers share one single-flight window and one of them is
cancelled before the load completes, the cancelled caller receives a
context-cancellation error, the shared load still executes exactly once,
and the uncancelled caller receives the load's successful result. -/
theorem cancellation_isolated (i j : Nat) (v : Bytes) (h : i ≠ j) :
    (sfcScenario i j).execCount = 1 ∧
    sfcComplete (Except.ok v) (sfcScenario i j)
      = [(j, Except.ok v), (i, Except.error "context canceled")] := by
  have hj : (j == i) = false := by
    simpa using Ne.symm h
  constructor
  · simp [sfcScenario, sfcArrive, sfcInit, sfcCancel]
  · simp [sfcScenario, sfcArrive, sfcInit, sfcCancel, sfcComplete, hj, Ne.symm h]

/-- Closed instance of the cancellation scenario for callers 1 and 2. -/
theorem cancellation_isolated_witness :
    (sfcScenario 1 2).execCount = 1 ∧
    sfcComplete (Except.ok [5]) (sfcScenario 1 2)
      = [(2, Except.ok [5]), (1, Except.error "context canceled")] :=
  cancellation_isolated 1 2 [5] (by decide)

/-- C4: for a key owned by a remote peer whose transport fetch fails, a
succeeding fallback origin-load yields the loader's bytes to the caller
with no transport error and caches them locally through the same Set
policy; the error reaches the caller only when the fallback load also
fails. -/
theorem peer_fallback (env : GroupEnv) (st : LRUStore) (k peer ef : String)
    (hmiss : st.entries.find? (fun e => e.1 == k) = none)
    (hown : env.owner k = Owner.remotePeer peer)
    (hfetch : env.peerFetch k = Except.error ef) :
    (∀ v : Bytes, env.loader k = Except.ok v →
      (groupGet env st k).result = Except.ok v ∧
      (groupGet env st k).store = st.set k v ∧
      (groupGet env st k).loaderInvoked = true) ∧
    (∀ e : String, env.loader k = Except.error e →
      (groupGet env st k).result = Except.error e) := by
  have hget : st.get k = (none, st) := by
    unfold LRUStore.get
    rw [hmiss]
  constructor
  · intro v hload
    refine ⟨?_, ?_, ?_⟩ <;> simp [groupGet, hget, hown, hfetch, hload]
  · intro e hload
    simp [groupGet, hget, hown, hfetch, hload]

/-- Closed instance of peer fallback: a transport that always fails, a
loader that returns bytes, an empty store. -/
theorem peer_fallback_witness :
    (groupGet
      { owner := fun _ => Owner.remotePeer "p",
        loader := fun _ => Except.ok [7],
        peerFetch := fun _ => Except.error "peer down" }
      (emptyStore 10 0) "k").result = Except.ok [7] :=
  ((peer_fallback _ (emptyStore 10 0) "k" "p" "peer down" rfl rfl rfl).1 [7] rfl).1

/-- C5: for a locally-owned key whose origin-load fails, the error is
returned verbatim, the Local Store is unchanged, and a subsequent Get for
the key misses the cache and invokes the origin-loader again. -/
theorem load_error_not_cached (env : GroupEnv) (st : LRUStore) (k e : String)
    (hmiss : st.entries.find? (fun x => x.1 == k) = none)
    (hown : env.owner k = Owner.localNode)
    (hload : env.loader k = Except.error e) :
    (groupGet env st k).result = Except.error e ∧
    (groupGet env st k).store = st ∧
    (groupGet env st k).loaderInvoked = true ∧
    (groupGet env (groupGet env st k).store k).loaderInvoked = true ∧
    (groupGet env (groupGet env st k).store k).result = Except.error e := by
  have hget : st.get k = (none, st) := by
    unfold LRUStore.get
    rw [hmiss]
  have h1 : groupGet env st k
      = { result := Except.error e, store := st, loaderInvoked := true } := by
    simp [groupGet, hget, hown, hload]
  refine ⟨?_, ?_, ?_, ?_, ?_⟩ <;> rw [h1] <;> simp [groupGet, hget, hown, hload]

/-- Closed instance of the load-error path: a loader that always fails on
an empty store. -/
theorem load_error_not_cached_witness :
    (groupGet
      { owner := fun _ => Owner.localNode,
        loader := fun _ => Except.error "boom",
        peerFetch := fun _ => Except.ok [] }
      (emptyStore 10 0) "k").result = Except.error "boom" :=
  (load_error_not_cached _ (emptyStore 10 0) "k" "boom" rfl rfl rfl).1

/-- C3 fails as stated at the empty PeerSet snapshot: two different nodes
holding the same (empty) snapshot each return their own local sentinel for
the same key, so they do not compute the same peer. -/
theorem pick_owner_empty_snapshot_counterexample :
    pickOwner "a" [] "k" = "a" ∧
    pickOwner "b" [] "k" = "b" ∧
    pickOwner "a" [] "k" ≠ pickOwner "b" [] "k" := by
  refine ⟨rfl, rfl, ?_⟩
  decide

/-- C3 amended to nonempty snapshots: for every fixed nonempty PeerSet
snapshot and every key, any two nodes — whatever their own identities —
independently computing the owner over that same snapshot compute the same
peer, a member of the snapshot; call-to-call stability on one node follows
since the result is a pure function of the snapshot and the key. -/
theorem pick_owner_cross_node (self1 self2 k : String) (ps : List String)
    (h : ps ≠ []) :
    pickOwner self1 ps k = pickOwner self2 ps k ∧
    pickOwner self1 ps k ∈ ps := by
  match ps, h with
  | p :: rest, _ =>
    have hlt : keyHash k % (p :: rest).length < (p :: rest).length :=
      Nat.mod_lt _ (by simp)
    constructor
    · show (p :: rest).getD (keyHash k % (p :: rest).length) self1
        = (p :: rest).getD (keyHash k % (p :: rest).length) self2
      rw [List.getD_eq_getElem _ _ hlt, List.getD_eq_getElem _ _ hlt]
    · show (p :: rest).getD (keyHash k % (p :: rest).length) self1 ∈ p :: rest
      rw [List.getD_eq_getElem _ _ hlt]
      exact List.getElem_mem hlt

/-- Closed instance of cross-node agreement: two nodes with different
identities over the same two-peer snapshot pick the same owner. -/
theorem pick_owner_cross_node_witness :
    pickOwner "a" ["p", "q"] "key" = pickOwner "b" ["p", "q"] "key" ∧
    pickOwner "a" ["p", "q"] "key" ∈ ["p", "q"] :=
  pick_owner_cross_node "a" "b" "key" ["p", "q"] (by decide)

theorem routerAfter_cases (updates : List (List String)) :
    ∀ init : List String,
      routerAfter init updates = init ∨ routerAfter init updates ∈ updates := by
  induction updates with
  | nil =>
    intro init
    exact Or.inl rfl
  | cons u us ih =>
    intro init
    have hstep : routerAfter init (u :: us) = routerAfter u us := rfl
    rw [hstep]
    rcases ih u with h | h
    · exact Or.inr (by rw [h]; exact List.mem_cons_self u us)
    · exact Or.inr (List.mem_cons_of_mem _ h)

/-- C8: every SetPeers update replaces the router's snapshot wholesale, so
at any point of any update sequence — hence for any PickOwner call running
concurrently with updates — the observed peer list is the initial list in
full or one submitted update list in full, never a mixture. -/
theorem set_peers_atomic (init : List String) (updates : List (List String))
    (n : Nat) :
    routerAfter init (updates.take n) = init ∨
      routerAfter init (updates.take n) ∈ updates := by
  rcases routerAfter_cases (updates.take n) init with h | h
  · exact Or.inl h
  · exact Or.inr (List.take_subset n updates h)

end MapboxSearch
